import Mathlib

/-!
Verification of the Font Scope Pro single-page application (src/unnamed/part_000).

The JavaScript source is shallowly embedded: the mutable `STATE` container
becomes the `AppState` structure, DOM nodes become abstract identifiers
(`GridChild.card` with a numeric id allocated from `cardCounter`), object URLs
become the `Url` type, IndexedDB becomes the `store` field together with
explicit success/failure parameters on the operations that reach it, and every
user-visible `toast` call is recorded in the `toasts` log.  Each operation of
the app (`filter`, `render`, `handleUpload`, `deleteSingleFont`, `clearAll`,
`updateTag`, `exportPDF`, `loadFonts`) is translated into a pure function on
`AppState`, following the source line by line.
-/

namespace FontScope

/-! ## Strings: the JavaScript primitives used by the app -/

/-- `String.prototype.toLowerCase`, modelled per character. -/
def jsToLower (s : String) : String := ⟨s.data.map Char.toLower⟩

/-- `String.prototype.includes`: substring containment. -/
def strIncludes (hay sub : String) : Bool := decide (sub.data <:+: hay.data)

/-- `String.prototype.endsWith`. -/
def strEndsWith (s sfx : String) : Bool := decide (sfx.data <:+ s.data)

/-- The white-space characters removed by `String.prototype.trim`. -/
def isJsSpace (c : Char) : Bool :=
  let n := c.toNat
  (9 ≤ n && n ≤ 13) || n == 32 || n == 0xA0 || n == 0x1680 ||
  (0x2000 ≤ n && n ≤ 0x200A) || n == 0x2028 || n == 0x2029 ||
  n == 0x202F || n == 0x205F || n == 0x3000 || n == 0xFEFF

/-- `String.prototype.trim`: strip surrounding white space. -/
def jsTrim (s : String) : String :=
  ⟨((s.data.dropWhile isJsSpace).reverse.dropWhile isJsSpace).reverse⟩

/-- The character class of `Security.sanitizeTag`'s replace call:
control characters U+0000..U+001F and U+007F..U+009F, and the bidi
marks/overrides U+200E, U+200F, U+202A..U+202E. -/
def isBadTagChar (c : Char) : Bool :=
  let n := c.toNat
  n ≤ 0x1F || (0x7F ≤ n && n ≤ 0x9F) || n == 0x200E || n == 0x200F ||
  (0x202A ≤ n && n ≤ 0x202E)

/-! ## Security helpers (`Security` object in the source) -/

/-- `Security.sanitizeTag`: `if (!str) return ''` then
`str.trim().slice(0, 40).replace(/[...]/g, '')`. -/
def sanitizeTag (s : String) : String :=
  if s = "" then ""
  else ⟨((jsTrim s).data.take 40).filter (fun c => !isBadTagChar c)⟩

/-- UTF-8 encoding of one code point; `unescape(encodeURIComponent(base))`
turns a string into the string of its UTF-8 bytes, which is what `btoa`
then receives in `Security.safeFontId`. -/
def charUtf8 (c : Char) : List Nat :=
  let n := c.toNat
  if n < 0x80 then [n]
  else if n < 0x800 then [0xC0 + n / 64, 0x80 + n % 64]
  else if n < 0x10000 then
    [0xE0 + n / 4096, 0x80 + (n / 64) % 64, 0x80 + n % 64]
  else
    [0xF0 + n / 262144, 0x80 + (n / 4096) % 64, 0x80 + (n / 64) % 64, 0x80 + n % 64]

def b64Table : List Char :=
  "ABCDEFGHIJKLMNOPQRSTUVWXYZabcdefghijklmnopqrstuvwxyz0123456789+/".data

def b64Char (n : Nat) : Char := b64Table.getD n 'A'

/-- `btoa`: base64 of a byte sequence (with `=` padding, as in the browser). -/
def btoa : List Nat → List Char
  | [] => []
  | [a] =>
    let a := a % 256
    [b64Char (a / 4), b64Char (a % 4 * 16), '=', '=']
  | [a, b] =>
    let a := a % 256; let b := b % 256
    [b64Char (a / 4), b64Char (a % 4 * 16 + b / 16), b64Char (b % 16 * 4), '=']
  | a :: b :: c :: rest =>
    let a := a % 256; let b := b % 256; let c := c % 256
    b64Char (a / 4) :: b64Char (a % 4 * 16 + b / 16) ::
      b64Char (b % 16 * 4 + c / 64) :: b64Char (c % 64) :: btoa rest

/-- The replace in `safeFontId`: keep ASCII alphanumerics, replace the rest
with an underscore. -/
def toAlnumUnderscore (c : Char) : Char :=
  if ('a' ≤ c && c ≤ 'z') || ('A' ≤ c && c ≤ 'Z') || ('0' ≤ c && c ≤ '9') then c
  else '_'

/-! ## Data model -/

/-- A binary blob: only its size and MIME type are observable to the app's
logic (`safeFontId` and URL creation). -/
structure Blob where
  size : Nat
  mime : String
deriving DecidableEq, Repr

/-- The `data` field of a stored record: a `Blob`, a string URL, or anything
else (for which `getFontUrl` returns `null`). -/
inductive FontData
  | blob (b : Blob)
  | str (s : String)
  | other
deriving DecidableEq, Repr

/-- A stored font record: `{ fileName, data, userTag }`. -/
structure FontRecord where
  fileName : String
  data : FontData
  userTag : String
deriving DecidableEq, Repr

/-- `Security.safeFontId(fileName, blob)`. -/
def safeFontId (fileName : String) (data : FontData) : String :=
  let size := match data with | FontData.blob b => b.size | _ => 0
  let mime := match data with
    | FontData.blob b => if b.mime = "" then "na" else b.mime
    | _ => "na"
  let base := fileName ++ "_" ++ toString size ++ "_" ++ mime
  let safeStr := fileName.data.map toAlnumUnderscore
  let hash := ((btoa (base.data.flatMap charUtf8)).filter (fun c => c ≠ '=')).take 8
  ⟨('f' :: '_' :: safeStr.take 20) ++ ('_' :: hash)⟩

/-- An object URL (`URL.createObjectURL`, numbered) or a raw string used
directly as a URL. -/
inductive Url
  | obj (n : Nat)
  | raw (s : String)
deriving DecidableEq, Repr

/-- The user-visible toast notifications of the app, one constructor per
`toast(...)` call site. -/
inductive Toast
  | loadFailed
  | unsupportedFormat
  | limitExceeded
  | quotaExceeded
  | tooBig (name : String)
  | badSig (name : String)
  | readFailed (name : String)
  | uploaded (n : Nat)
  | deleted
  | deleteFailed
  | cleared
  | clearFailed
  | copied
  | noResults
  | noData
deriving DecidableEq, Repr

/-- A child of the `#fontGrid` element: a font card (identified by a unique
id) or the `#emptyState` placeholder. -/
inductive GridChild
  | card (id : Nat)
  | empty
deriving DecidableEq, Repr

/-- An uploaded `File`, together with the outcomes of the asynchronous
operations performed on it: whether the 4-byte slice read succeeds
(`sliceReadOk`), whether the full read succeeds (`readOk`) and whether the
`DB.put` of the resulting record succeeds (`putOk`). -/
structure JsFile where
  name : String
  content : List Nat
  ftype : String
  sliceReadOk : Bool
  readOk : Bool
  putOk : Bool
deriving DecidableEq, Repr

/-- `File.size` is the length of the file's contents. -/
def JsFile.size (f : JsFile) : Nat := f.content.length

/-- The whole mutable state of the app: the `STATE` container, the contents
of the IndexedDB store, the style sheet (`styleRules`, in insertion order),
the grid's DOM children, and logs of the observable effects (toasts, store
puts, revoked URLs). -/
structure AppState where
  fonts : List FontRecord
  filtered : List FontRecord
  search : String
  store : List FontRecord
  loadedFonts : List String
  styleRules : List String
  objectUrls : List (String × Url)
  urlCounter : Nat
  renderedMap : List (String × Nat)
  grid : List GridChild
  cardCounter : Nat
  isProcessing : Bool
  toasts : List Toast
  puts : List FontRecord
  revoked : List Url
deriving DecidableEq, Repr

def initState : AppState :=
  { fonts := [], filtered := [], search := "", store := [], loadedFonts := [],
    styleRules := [], objectUrls := [], urlCounter := 0, renderedMap := [],
    grid := [], cardCounter := 0, isProcessing := false, toasts := [],
    puts := [], revoked := [] }

/-- Association-list lookup, modelling `Map.get` / `Map.has`. -/
def alookup {β : Type} (k : String) : List (String × β) → Option β
  | [] => none
  | e :: rest => if e.1 = k then some e.2 else alookup k rest

/-- Record one `toast(...)` call. -/
def addToast (t : Toast) (st : AppState) : AppState :=
  { st with toasts := st.toasts ++ [t] }

/-! ## Core logic -/

/-- `getFontUrl(fileName, data)`: return the cached URL, else create one for
a `Blob`, pass a string through, else return `null`. -/
def getFontUrl (fileName : String) (data : FontData) (st : AppState) :
    AppState × Option Url :=
  match alookup fileName st.objectUrls with
  | some u => (st, some u)
  | none =>
    match data with
    | FontData.blob _ =>
      let u := Url.obj st.urlCounter
      ({ st with urlCounter := st.urlCounter + 1,
                 objectUrls := st.objectUrls ++ [(fileName, u)] }, some u)
    | FontData.str s =>
      let u := Url.raw s
      ({ st with objectUrls := st.objectUrls ++ [(fileName, u)] }, some u)
    | FontData.other => (st, none)

/-- `injectFontFace(fileName, data)`: skip if the identifier is cached,
else obtain a URL, insert the font-face rule and cache the identifier. -/
def injectFontFace (fileName : String) (data : FontData) (st : AppState) :
    AppState × Option String :=
  let fontId := safeFontId fileName data
  if fontId ∈ st.loadedFonts then (st, some fontId)
  else
    match getFontUrl fileName data st with
    | (st1, none) => (st1, none)
    | (st1, some _) =>
      ({ st1 with styleRules := st1.styleRules ++ [fontId],
                  loadedFonts := st1.loadedFonts ++ [fontId] }, some fontId)

/-- The filter predicate of `filter()`: `q` is the already-lowercased search
string; a field participates only when it is truthy (non-empty). -/
def jsMatch (q : String) (f : FontRecord) : Bool :=
  (decide (f.fileName ≠ "") && strIncludes (jsToLower f.fileName) q) ||
  (decide (f.userTag ≠ "") && strIncludes (jsToLower f.userTag) q)

/-- The list computed by `filter()` for `STATE.filtered`. -/
def jsFilter (search : String) (fonts : List FontRecord) : List FontRecord :=
  fonts.filter (jsMatch (jsToLower search))

/-! ### Rendering (`render()`), split into its three phases -/

/-- Phase 1 of `render()`: remove every rendered entry whose key is not in
the current filtered view, together with its card. -/
def removeStale (st : AppState) : AppState :=
  { st with
    grid := st.grid.filter (fun c =>
      match c with
      | GridChild.card i => decide (i ∉ (st.renderedMap.filter (fun e =>
          decide (e.1 ∉ st.filtered.map (fun f => f.fileName)))).map Prod.snd)
      | GridChild.empty => true),
    renderedMap := st.renderedMap.filter (fun e =>
      decide (e.1 ∈ st.filtered.map (fun f => f.fileName))) }

/-- Phase 2 of `render()`: append the `#emptyState` placeholder when the
filtered view is empty, remove it otherwise. -/
def emptyStateStep (st : AppState) : AppState :=
  if st.filtered.isEmpty then
    if GridChild.empty ∈ st.grid then st
    else { st with grid := st.grid ++ [GridChild.empty] }
  else { st with grid := st.grid.filter (fun c => decide (c ≠ GridChild.empty)) }

/-- `insertBefore(x, b)` on the grid's child list. -/
def insertBeforeNode : List GridChild → GridChild → GridChild → List GridChild
  | [], x, _ => [x]
  | c :: cs, x, b => if c = b then x :: c :: cs else c :: insertBeforeNode cs x b

/-- The positioning step of the render loop: if the child at `idx` is not
this entry's card, move the card there (append when `idx` is past the end). -/
def positionCard (grid : List GridChild) (cid : Nat) (idx : Nat) :
    List GridChild :=
  match grid[idx]? with
  | some c =>
    if c = GridChild.card cid then grid
    else insertBeforeNode (grid.filter (fun x => decide (x ≠ GridChild.card cid)))
      (GridChild.card cid) c
  | none =>
    (grid.filter (fun x => decide (x ≠ GridChild.card cid))) ++ [GridChild.card cid]

/-- Phase 3 of `render()`: the `STATE.filtered.forEach((font, index) => ...)`
loop, reusing or creating a card for each record and fixing its position. -/
def renderLoop : List FontRecord → Nat → AppState → AppState
  | [], _, st => st
  | f :: rest, idx, st =>
    match alookup f.fileName st.renderedMap with
    | some cid =>
      renderLoop rest (idx + 1) { st with grid := positionCard st.grid cid idx }
    | none =>
      match injectFontFace f.fileName f.data st with
      | (st1, none) => renderLoop rest (idx + 1) st1
      | (st1, some _) =>
        let cid := st1.cardCounter
        let st2 := { st1 with
          cardCounter := cid + 1,
          renderedMap := st1.renderedMap ++ [(f.fileName, cid)] }
        renderLoop rest (idx + 1) { st2 with grid := positionCard st2.grid cid idx }

/-- `render()`. -/
def render (st : AppState) : AppState :=
  renderLoop st.filtered 0 (emptyStateStep (removeStale st))

/-- `filter()`: recompute `STATE.filtered` from `STATE.fonts` and the search
string, then render. -/
def filterOp (st : AppState) : AppState :=
  render { st with filtered := jsFilter st.search st.fonts }

/-- `loadFonts()`: reload the registry from the store, clear the grid, the
rendered map, the style sheet and the font-face cache, then filter. -/
def loadFonts (st : AppState) : AppState :=
  filterOp { st with fonts := st.store, grid := [], renderedMap := [],
                     styleRules := [], loadedFonts := [] }

/-! ## Upload pipeline -/

def MAX_FONTS : Nat := 500
def MAX_FILE_SIZE : Nat := 52428800

def validExtensions : List String := [".ttf", ".otf", ".woff", ".woff2"]

/-- The extension filter of `handleUpload`:
`validExtensions.some(ext => f.name.toLowerCase().endsWith(ext))`. -/
def hasValidExt (f : JsFile) : Bool :=
  validExtensions.any (fun ext => strEndsWith (jsToLower f.name) ext)

/-- `Security.checkSignature(file)`: read the first four bytes big-endian and
compare against the TTF/OTF/WOFF/WOFF2 magic numbers; resolve `false` when
the slice is shorter than four bytes or the read fails. -/
def checkSignature (f : JsFile) : Bool :=
  if f.sliceReadOk then
    match f.content.take 4 with
    | [b0, b1, b2, b3] =>
      let magic := b0 % 256 * 16777216 + b1 % 256 * 65536 + b2 % 256 * 256 + b3 % 256
      decide (magic = 0x00010000 ∨ magic = 0x4F54544F ∨
              magic = 0x774F4646 ∨ magic = 0x774F4632)
    | _ => false
  else false

/-- `new Blob([buffer], { type: file.type || 'application/octet-stream' })`'s
resulting MIME type. -/
def resolveType (t : String) : String :=
  if t = "" then "application/octet-stream" else t

/-- `DB.put`: upsert keyed on `fileName`. -/
def dbPut (r : FontRecord) (store : List FontRecord) : List FontRecord :=
  if store.any (fun x => decide (x.fileName = r.fileName)) then
    store.map (fun x => if x.fileName = r.fileName then r else x)
  else store ++ [r]

/-- Result of the per-file body of the upload loop. -/
inductive FileResult
  | ok (r : FontRecord)
  | fail (t : Toast)
deriving DecidableEq, Repr

def FileResult.isOk : FileResult → Bool
  | FileResult.ok _ => true
  | FileResult.fail _ => false

/-- The tag given to an uploaded file: the existing record's tag when a
record of the same name exists in `STATE.fonts`, else the empty string. -/
def uploadTag (fonts0 : List FontRecord) (f : JsFile) : String :=
  match fonts0.find? (fun r => decide (r.fileName = f.name)) with
  | some r => r.userTag
  | none => ""

/-- The record `handleUpload` builds for a file before `DB.put`. -/
def uploadRecord (fonts0 : List FontRecord) (f : JsFile) : FontRecord :=
  ⟨f.name, FontData.blob ⟨f.size, resolveType f.ftype⟩, uploadTag fonts0 f⟩

/-- One iteration of `handleUpload`'s loop over `validFiles`: size check,
signature check, full read, tag lookup in `STATE.fonts`, and the `DB.put`
(whose failure is caught by the same `catch` as a read failure). -/
def processFile (fonts0 : List FontRecord) (f : JsFile) : FileResult :=
  if f.size > MAX_FILE_SIZE then FileResult.fail (Toast.tooBig f.name)
  else if checkSignature f = false then FileResult.fail (Toast.badSig f.name)
  else if f.readOk = false then FileResult.fail (Toast.readFailed f.name)
  else if f.putOk then FileResult.ok (uploadRecord fonts0 f)
  else FileResult.fail (Toast.readFailed f.name)

/-- The loop of `handleUpload`, threading the state through each file. -/
def uploadLoop (fonts0 : List FontRecord) : List JsFile → AppState → AppState
  | [], st => st
  | f :: rest, st =>
    let st' := match processFile fonts0 f with
      | FileResult.ok r =>
        { st with store := dbPut r st.store, puts := st.puts ++ [r] }
      | FileResult.fail t => addToast t st
    uploadLoop fonts0 rest st'

/-- Number of successful per-file saves in a batch. -/
def countOk (fonts0 : List FontRecord) (files : List JsFile) : Nat :=
  (files.filter (fun f => (processFile fonts0 f).isOk)).length

/-- The tail of `handleUpload` once all batch guards have passed: set the
busy flag, run the loop, clear the flag, reload from the store and report
the success count (only when it is positive). -/
def uploadFinish (fonts0 : List FontRecord) (validFiles : List JsFile)
    (st : AppState) : AppState :=
  if countOk fonts0 validFiles > 0 then
    addToast (Toast.uploaded (countOk fonts0 validFiles))
      (loadFonts { uploadLoop fonts0 validFiles { st with isProcessing := true }
                   with isProcessing := false })
  else
    loadFonts { uploadLoop fonts0 validFiles { st with isProcessing := true }
                with isProcessing := false }

/-- `handleUpload(files)`.  `quotaEnough` is the outcome of the
`navigator.storage.estimate()` check (taken as `true` when the API is
unavailable or throws). -/
def handleUpload (quotaEnough : Bool) (files : List JsFile) (st : AppState) :
    AppState :=
  if st.isProcessing then st
  else if (files.filter hasValidExt).isEmpty then
    addToast Toast.unsupportedFormat st
  else if st.fonts.length + (files.filter hasValidExt).length > MAX_FONTS then
    addToast Toast.limitExceeded st
  else if quotaEnough = false then addToast Toast.quotaExceeded st
  else uploadFinish st.fonts (files.filter hasValidExt) st

/-! ## Deletion, clearing, tag update, export -/

/-- The state mutation of `deleteSingleFont`'s success branch: drop the
record from the store copy, `fonts` and `filtered`. -/
def deleteStateStep (fileName : String) (st : AppState) : AppState :=
  { st with
    store := st.store.filter (fun f => decide (f.fileName ≠ fileName)),
    fonts := st.fonts.filter (fun f => decide (f.fileName ≠ fileName)),
    filtered := st.filtered.filter (fun f => decide (f.fileName ≠ fileName)) }

/-- The memory-cleanup step of `deleteSingleFont`: revoke and remove the
record's object URL, when one is cached. -/
def deleteUrlStep (fileName : String) (st : AppState) : AppState :=
  match alookup fileName st.objectUrls with
  | some u =>
    { st with revoked := st.revoked ++ [u],
              objectUrls := st.objectUrls.filter (fun e => decide (e.1 ≠ fileName)) }
  | none => st

/-- The DOM-cleanup step of `deleteSingleFont`: remove the record's card and
rendered-map entry, when one exists. -/
def deleteDomStep (fileName : String) (st : AppState) : AppState :=
  match alookup fileName st.renderedMap with
  | some cid =>
    { st with grid := st.grid.filter (fun c => decide (c ≠ GridChild.card cid)),
              renderedMap := st.renderedMap.filter (fun e => decide (e.1 ≠ fileName)) }
  | none => st

/-- The combined effect of the three mutation steps of a successful delete
of a record that has both a cached URL (`u`) and a rendered card (`cid`). -/
def deleteMutated (n : String) (u : Url) (cid : Nat) (st : AppState) :
    AppState :=
  { st with
    store := st.store.filter (fun f => decide (f.fileName ≠ n)),
    fonts := st.fonts.filter (fun f => decide (f.fileName ≠ n)),
    filtered := st.filtered.filter (fun f => decide (f.fileName ≠ n)),
    revoked := st.revoked ++ [u],
    objectUrls := st.objectUrls.filter (fun e => decide (e.1 ≠ n)),
    grid := st.grid.filter (fun c => decide (c ≠ GridChild.card cid)),
    renderedMap := st.renderedMap.filter (fun e => decide (e.1 ≠ n)) }

/-- `deleteSingleFont(fileName)`: after the confirm dialog, `DB.delete`;
on success remove the record from `fonts` and `filtered`, revoke and drop
its object URL, remove its card and map entry, re-run `filter()` and toast;
on failure only toast an error. -/
def deleteSingleFont (confirmed storeOk : Bool) (fileName : String)
    (st : AppState) : AppState :=
  if confirmed = false then st
  else if storeOk = false then addToast Toast.deleteFailed st
  else addToast Toast.deleted
    (filterOp (deleteDomStep fileName (deleteUrlStep fileName
      (deleteStateStep fileName st))))

/-- `clearAll()`: confirm, busy-flag guard, `DB.clear`; on success revoke
every object URL, clear the URL map and reload; on failure only toast. -/
def clearAll (confirmed storeOk : Bool) (st : AppState) : AppState :=
  if confirmed = false then st
  else if st.isProcessing then st
  else if storeOk then
    let st1 := { st with revoked := st.revoked ++ st.objectUrls.map Prod.snd,
                         objectUrls := [], store := [] }
    let st2 := loadFonts st1
    addToast Toast.cleared { st2 with isProcessing := false }
  else addToast Toast.clearFailed { st with isProcessing := false }

/-- `updateTag(fileName, rawTag)`: sanitize, mutate the record in place
(the object is shared between `fonts` and `filtered`), then fire off a
`DB.put` whose result is ignored (no `.then`, no `.catch`). -/
def updateTag (putOk : Bool) (fileName rawTag : String) (st : AppState) :
    AppState :=
  let tag := sanitizeTag rawTag
  match st.fonts.find? (fun f => decide (f.fileName = fileName)) with
  | none => st
  | some f0 =>
    let upd := fun (f : FontRecord) =>
      if f.fileName = fileName then { f with userTag := tag } else f
    let st := { st with fonts := st.fonts.map upd, filtered := st.filtered.map upd }
    if putOk then { st with store := dbPut { f0 with userTag := tag } st.store }
    else st

/-- `exportPDF()` restricted to its state effects: guards, busy flag, and a
font-face injection for every record in the exported list. -/
def exportPDF (st : AppState) : AppState :=
  if st.search ≠ "" && st.filtered.isEmpty then addToast Toast.noResults st
  else if st.fonts.isEmpty then addToast Toast.noData st
  else
    let list := if st.filtered.isEmpty then st.fonts else st.filtered
    let st1 := list.foldl (fun s f => (injectFontFace f.fileName f.data s).1)
      { st with isProcessing := true }
    { st1 with isProcessing := false }

/-! ## Derived views of the upload loop (for stating its effects) -/

/-- The records a batch successfully saves, in input order. -/
def savedRecords (fonts0 : List FontRecord) (files : List JsFile) :
    List FontRecord :=
  files.filterMap (fun f =>
    match processFile fonts0 f with
    | FileResult.ok r => some r
    | FileResult.fail _ => none)

/-- The per-file failure toasts of a batch, in input order. -/
def failToasts (fonts0 : List FontRecord) (files : List JsFile) : List Toast :=
  files.filterMap (fun f =>
    match processFile fonts0 f with
    | FileResult.ok _ => none
    | FileResult.fail t => some t)

/-! ## Spec-side predicates (formalising the specification's wording) -/

/-- Case-insensitive containment, as the spec words it: the lowercased
haystack contains the lowercased needle. -/
def ciContains (hay sub : String) : Bool :=
  strIncludes (jsToLower hay) (jsToLower sub)

/-- The matching predicate exactly as claim C1 states it: the record's
`fileName` or `userTag` contains the query case-insensitively. -/
def specMatch (q : String) (f : FontRecord) : Prop :=
  ciContains f.fileName q = true ∨ ciContains f.userTag q = true

/-- The amended matching predicate: a field participates only when it is
non-empty (the code guards each field with a JS truthiness check). -/
def amendMatch (q : String) (f : FontRecord) : Prop :=
  (f.fileName ≠ "" ∧ ciContains f.fileName q = true) ∨
  (f.userTag ≠ "" ∧ ciContains f.userTag q = true)

/-- The tag sanitization as claim C6 words it: trim surrounding whitespace,
cap at 40 characters, remove control and bidi-override characters. -/
def specSanitizeTag (s : String) : String :=
  ⟨((jsTrim s).data.take 40).filter (fun c => !isBadTagChar c)⟩

/-- The in-sync invariant relating the registry, the filtered view, the
rendered map and the grid after a completed render pass. -/
def Synced (st : AppState) : Prop :=
  st.filtered = jsFilter st.search st.fonts ∧
  (st.fonts.map (fun f => f.fileName)).Nodup ∧
  st.renderedMap.map Prod.fst = st.filtered.map (fun f => f.fileName) ∧
  (st.renderedMap.map Prod.snd).Nodup ∧
  st.grid = (if st.filtered.isEmpty then [GridChild.empty]
             else st.renderedMap.map (fun e => GridChild.card e.2))

/-- The style-sheet invariant of claim C8: the inserted font-face rules have
pairwise distinct identifiers, and every inserted identifier is recorded in
the `loadedFonts` cache. -/
def StyleInv (st : AppState) : Prop :=
  st.styleRules.Nodup ∧ ∀ id, id ∈ st.styleRules → id ∈ st.loadedFonts

/-- One user-triggered operation of the app, as a step relation on states. -/
inductive Step : AppState → AppState → Prop
  | upload (q : Bool) (files : List JsFile) (st : AppState) :
      Step st (handleUpload q files st)
  | search (q : String) (st : AppState) :
      Step st (filterOp { st with search := q })
  | delete (c ok : Bool) (n : String) (st : AppState) :
      Step st (deleteSingleFont c ok n st)
  | clear (c ok : Bool) (st : AppState) :
      Step st (clearAll c ok st)
  | tag (ok : Bool) (n raw : String) (st : AppState) :
      Step st (updateTag ok n raw st)
  | load (st : AppState) : Step st (loadFonts st)
  | exportList (st : AppState) : Step st (exportPDF st)

/-! ## Concrete fixtures used by counterexamples and witnesses -/

/-- A well-formed TTF upload (magic bytes `00 01 00 00`). -/
def ttfGood : JsFile := ⟨"a.ttf", [0, 1, 0, 0], "font/ttf", true, true, true⟩

/-- A `.ttf`-named file whose leading bytes match no font magic number. -/
def ttfBad : JsFile := ⟨"bad.ttf", [1, 2, 3, 4], "font/ttf", true, true, true⟩

/-- A file rejected by the extension filter. -/
def pngFile : JsFile := ⟨"x.png", [0, 0, 0, 0], "image/png", true, true, true⟩

/-- A valid TTF with an upper-case name, for the case-insensitivity claim. -/
def upperTtf : JsFile := ⟨"FONT.TTF", [0, 1, 0, 0], "", true, true, true⟩

def recA : FontRecord := ⟨"a.ttf", FontData.blob ⟨4, "font/ttf"⟩, "head"⟩

def recB : FontRecord := ⟨"b.otf", FontData.blob ⟨4, "font/otf"⟩, ""⟩

/-- A state with two records uploaded, rendered and in sync. -/
def stDemo : AppState :=
  { initState with
    fonts := [recA, recB], filtered := [recA, recB], store := [recA, recB],
    objectUrls := [("a.ttf", Url.obj 0), ("b.otf", Url.obj 1)], urlCounter := 2,
    renderedMap := [("a.ttf", 0), ("b.otf", 1)],
    grid := [GridChild.card 0, GridChild.card 1], cardCounter := 2 }

/-- A state in which an upload batch is in flight. -/
def stBusy : AppState := { initState with isProcessing := true }

/-- A registry holding one record whose `fileName` and `userTag` are both
empty: the JS truthiness guards make it unmatchable. -/
def stC1 : AppState := { initState with fonts := [⟨"", FontData.str "u", ""⟩] }

/-- A state with one stored record, for the tag-update claims. -/
def stTag : AppState :=
  { initState with fonts := [recA], filtered := [recA], store := [recA] }

/-- A batch of 501 files of which exactly one has a valid extension. -/
def files501 : List JsFile := List.replicate 500 pngFile ++ [ttfGood]

/-- A registry already holding 500 records. -/
def st500 : AppState := { initState with fonts := List.replicate 500 recA }

/-- A `.ttf` file whose contents are shorter than four bytes. -/
def shortTtf : JsFile := ⟨"short.ttf", [0, 1], "font/ttf", true, true, true⟩

instance (q : String) (f : FontRecord) : Decidable (specMatch q f) :=
  inferInstanceAs (Decidable
    (ciContains f.fileName q = true ∨ ciContains f.userTag q = true))

instance (q : String) (f : FontRecord) : Decidable (amendMatch q f) :=
  inferInstanceAs (Decidable
    ((f.fileName ≠ "" ∧ ciContains f.fileName q = true) ∨
     (f.userTag ≠ "" ∧ ciContains f.userTag q = true)))

instance (st : AppState) : Decidable (Synced st) :=
  inferInstanceAs (Decidable (_ ∧ _ ∧ _ ∧ _ ∧ _))

instance (st : AppState) : Decidable (StyleInv st) :=
  inferInstanceAs (Decidable (_ ∧ ∀ id, id ∈ st.styleRules → id ∈ st.loadedFonts))

attribute [ext] AppState

/-! ## Helper lemmas: association lists -/

theorem alookup_mem {β : Type} {k : String} {v : β} :
    ∀ {rm : List (String × β)}, alookup k rm = some v → (k, v) ∈ rm := by
  intro rm
  induction rm with
  | nil => intro h; simp [alookup] at h
  | cons e t ih =>
    intro h
    rw [alookup] at h
    by_cases he : e.1 = k
    · rw [if_pos he] at h
      refine List.mem_cons.2 (Or.inl ?_)
      obtain ⟨e1, e2⟩ := e
      simp only [Option.some.injEq] at h
      simp only at he
      rw [he, h]
    · rw [if_neg he] at h
      exact List.mem_cons_of_mem _ (ih h)

theorem alookup_eq_of_mem_nodup {β : Type} {k : String} {v : β} :
    ∀ {rm : List (String × β)}, (rm.map Prod.fst).Nodup → (k, v) ∈ rm →
      alookup k rm = some v := by
  intro rm
  induction rm with
  | nil => intro _ h; simp at h
  | cons e t ih =>
    intro hnd hmem
    simp only [List.map_cons, List.nodup_cons] at hnd
    rw [alookup]
    by_cases he : e.1 = k
    · rw [if_pos he]
      rcases List.mem_cons.1 hmem with h | h
      · rw [← h]
      · exfalso
        exact hnd.1 (he ▸ (List.mem_map_of_mem Prod.fst h))
    · rw [if_neg he]
      rcases List.mem_cons.1 hmem with h | h
      · exact absurd (congrArg Prod.fst h).symm he
      · exact ih hnd.2 h

/-- Filtering on a predicate of a mapped value commutes with mapping. -/
theorem filter_map_comm {α γ : Type} (f : α → γ) (p : γ → Bool) :
    ∀ (l : List α), (l.filter (fun a => p (f a))).map f = (l.map f).filter p := by
  intro l
  induction l with
  | nil => rfl
  | cons a t ih =>
    by_cases h : p (f a) <;> simp [h, ih]

/-- Members of a list all mapped to pairwise-distinct values are determined
by their image. -/
theorem eq_of_nodup_map {α γ : Type} {f : α → γ} {l : List α} {a b : α}
    (hnd : (l.map f).Nodup) (ha : a ∈ l) (hb : b ∈ l) (hf : f a = f b) :
    a = b := by
  induction l with
  | nil => simp at ha
  | cons x t ih =>
    simp only [List.map_cons, List.nodup_cons] at hnd
    rcases List.mem_cons.1 ha with ha' | ha' <;> rcases List.mem_cons.1 hb with hb' | hb'
    · rw [ha', hb']
    · exfalso; exact hnd.1 (ha' ▸ hf ▸ List.mem_map_of_mem f hb')
    · exfalso; exact hnd.1 (hb' ▸ hf ▸ List.mem_map_of_mem f ha')
    · exact ih hnd.2 ha' hb'

/-! ## Helper lemmas: which fields each operation can touch -/

theorem getFontUrl_shape (n : String) (d : FontData) (st : AppState) :
    ∃ ou uc, (getFontUrl n d st).1 =
      { st with objectUrls := ou, urlCounter := uc } := by
  unfold getFontUrl
  split
  · exact ⟨st.objectUrls, st.urlCounter, rfl⟩
  · split
    · exact ⟨_, _, rfl⟩
    · exact ⟨_, _, rfl⟩
    · exact ⟨st.objectUrls, st.urlCounter, rfl⟩

theorem injectFontFace_shape (n : String) (d : FontData) (st : AppState) :
    ∃ ou uc sr lf, (injectFontFace n d st).1 =
      { st with objectUrls := ou, urlCounter := uc,
                styleRules := sr, loadedFonts := lf } := by
  obtain ⟨ou, uc, hsh⟩ := getFontUrl_shape n d st
  unfold injectFontFace
  by_cases hc : safeFontId n d ∈ st.loadedFonts
  · refine ⟨st.objectUrls, st.urlCounter, st.styleRules, st.loadedFonts, ?_⟩
    simp only [hc, if_true]
  · rcases hg : getFontUrl n d st with ⟨st1, o⟩
    rw [hg] at hsh
    cases o with
    | none =>
      refine ⟨ou, uc, st.styleRules, st.loadedFonts, ?_⟩
      simp only [hc, if_false, hg]
      exact hsh
    | some u =>
      refine ⟨ou, uc, st.styleRules ++ [safeFontId n d],
        st.loadedFonts ++ [safeFontId n d], ?_⟩
      simp only [hc, if_false, hg]
      show { st1 with styleRules := st1.styleRules ++ [safeFontId n d],
                      loadedFonts := st1.loadedFonts ++ [safeFontId n d] } = _
      rw [show st1 = { st with objectUrls := ou, urlCounter := uc } from hsh]

theorem renderLoop_shape :
    ∀ (fs : List FontRecord) (idx : Nat) (st : AppState),
      ∃ ou uc sr lf rm g cc, renderLoop fs idx st =
        { st with objectUrls := ou, urlCounter := uc, styleRules := sr,
                  loadedFonts := lf, renderedMap := rm, grid := g,
                  cardCounter := cc } := by
  intro fs
  induction fs with
  | nil =>
    intro idx st
    exact ⟨st.objectUrls, st.urlCounter, st.styleRules, st.loadedFonts,
      st.renderedMap, st.grid, st.cardCounter, rfl⟩
  | cons f rest ih =>
    intro idx st
    rw [renderLoop]
    cases hlk : alookup f.fileName st.renderedMap with
    | some cid =>
      simp only [hlk]
      exact ih (idx + 1) { st with grid := positionCard st.grid cid idx }
    | none =>
      simp only [hlk]
      obtain ⟨ou1, uc1, sr1, lf1, hsh⟩ := injectFontFace_shape f.fileName f.data st
      rcases hg : injectFontFace f.fileName f.data st with ⟨st1, o⟩
      rw [hg] at hsh
      cases o with
      | none =>
        obtain ⟨ou, uc, sr, lf, rm, g, cc, h⟩ := ih (idx + 1) st1
        exact ⟨ou, uc, sr, lf, rm, g, cc,
          h.trans (by rw [show st1 = _ from hsh])⟩
      | some fid =>
        obtain ⟨ou, uc, sr, lf, rm, g, cc, h⟩ := ih (idx + 1)
          { st1 with cardCounter := st1.cardCounter + 1,
                     renderedMap := st1.renderedMap ++ [(f.fileName, st1.cardCounter)],
                     grid := positionCard st1.grid st1.cardCounter idx }
        exact ⟨ou, uc, sr, lf, rm, g, cc,
          h.trans (by rw [show st1 = _ from hsh])⟩

theorem removeStale_shape (st : AppState) :
    ∃ g rm, removeStale st = { st with grid := g, renderedMap := rm } :=
  ⟨_, _, rfl⟩

theorem emptyStateStep_shape (st : AppState) :
    ∃ g, emptyStateStep st = { st with grid := g } := by
  unfold emptyStateStep
  split
  · split
    · exact ⟨st.grid, rfl⟩
    · exact ⟨_, rfl⟩
  · exact ⟨_, rfl⟩

theorem render_shape (st : AppState) :
    ∃ ou uc sr lf rm g cc, render st =
      { st with objectUrls := ou, urlCounter := uc, styleRules := sr,
                loadedFonts := lf, renderedMap := rm, grid := g,
                cardCounter := cc } := by
  unfold render
  obtain ⟨g1, rm1, h1⟩ := removeStale_shape st
  rw [h1]
  obtain ⟨g2, h2⟩ := emptyStateStep_shape { st with grid := g1, renderedMap := rm1 }
  rw [h2]
  obtain ⟨ou, uc, sr, lf, rm, g, cc, h3⟩ := renderLoop_shape st.filtered 0
    { { st with grid := g1, renderedMap := rm1 } with grid := g2 }
  rw [h3]
  exact ⟨ou, uc, sr, lf, rm, g, cc, rfl⟩

theorem filterOp_shape (st : AppState) :
    ∃ ou uc sr lf rm g cc, filterOp st =
      { st with filtered := jsFilter st.search st.fonts,
                objectUrls := ou, urlCounter := uc, styleRules := sr,
                loadedFonts := lf, renderedMap := rm, grid := g,
                cardCounter := cc } := by
  unfold filterOp
  obtain ⟨ou, uc, sr, lf, rm, g, cc, h⟩ :=
    render_shape { st with filtered := jsFilter st.search st.fonts }
  rw [h]
  exact ⟨ou, uc, sr, lf, rm, g, cc, rfl⟩

theorem filterOp_fonts (st : AppState) : (filterOp st).fonts = st.fonts := by
  obtain ⟨_, _, _, _, _, _, _, h⟩ := filterOp_shape st
  rw [h]

theorem filterOp_filtered (st : AppState) :
    (filterOp st).filtered = jsFilter st.search st.fonts := by
  obtain ⟨_, _, _, _, _, _, _, h⟩ := filterOp_shape st
  rw [h]

theorem filterOp_store (st : AppState) : (filterOp st).store = st.store := by
  obtain ⟨_, _, _, _, _, _, _, h⟩ := filterOp_shape st
  rw [h]

theorem filterOp_toasts (st : AppState) : (filterOp st).toasts = st.toasts := by
  obtain ⟨_, _, _, _, _, _, _, h⟩ := filterOp_shape st
  rw [h]

theorem filterOp_puts (st : AppState) : (filterOp st).puts = st.puts := by
  obtain ⟨_, _, _, _, _, _, _, h⟩ := filterOp_shape st
  rw [h]

theorem filterOp_isProcessing (st : AppState) :
    (filterOp st).isProcessing = st.isProcessing := by
  obtain ⟨_, _, _, _, _, _, _, h⟩ := filterOp_shape st
  rw [h]

theorem filterOp_revoked (st : AppState) :
    (filterOp st).revoked = st.revoked := by
  obtain ⟨_, _, _, _, _, _, _, h⟩ := filterOp_shape st
  rw [h]

theorem loadFonts_fonts (st : AppState) : (loadFonts st).fonts = st.store := by
  unfold loadFonts; rw [filterOp_fonts]

theorem loadFonts_store (st : AppState) : (loadFonts st).store = st.store := by
  unfold loadFonts; rw [filterOp_store]

theorem loadFonts_toasts (st : AppState) : (loadFonts st).toasts = st.toasts := by
  unfold loadFonts; rw [filterOp_toasts]

theorem loadFonts_puts (st : AppState) : (loadFonts st).puts = st.puts := by
  unfold loadFonts; rw [filterOp_puts]

theorem loadFonts_isProcessing (st : AppState) :
    (loadFonts st).isProcessing = st.isProcessing := by
  unfold loadFonts; rw [filterOp_isProcessing]

/-! ## Helper lemmas: the upload loop -/

theorem uploadLoop_toasts (fonts0 : List FontRecord) :
    ∀ (files : List JsFile) (st : AppState),
      (uploadLoop fonts0 files st).toasts = st.toasts ++ failToasts fonts0 files := by
  intro files
  induction files with
  | nil => intro st; simp [uploadLoop, failToasts]
  | cons f rest ih =>
    intro st
    rw [uploadLoop]
    cases hpf : processFile fonts0 f with
    | ok r => simp [ih, failToasts, hpf, List.filterMap_cons]
    | fail t => simp [ih, failToasts, addToast, hpf, List.filterMap_cons]

theorem uploadLoop_puts (fonts0 : List FontRecord) :
    ∀ (files : List JsFile) (st : AppState),
      (uploadLoop fonts0 files st).puts = st.puts ++ savedRecords fonts0 files := by
  intro files
  induction files with
  | nil => intro st; simp [uploadLoop, savedRecords]
  | cons f rest ih =>
    intro st
    rw [uploadLoop]
    cases hpf : processFile fonts0 f with
    | ok r => simp [ih, savedRecords, hpf, List.filterMap_cons]
    | fail t => simp [ih, savedRecords, addToast, hpf, List.filterMap_cons]

theorem uploadLoop_shape (fonts0 : List FontRecord) :
    ∀ (files : List JsFile) (st : AppState),
      ∃ s t p, uploadLoop fonts0 files st =
        { st with store := s, toasts := t, puts := p } := by
  intro files
  induction files with
  | nil => intro st; exact ⟨st.store, st.toasts, st.puts, rfl⟩
  | cons f rest ih =>
    intro st
    rw [uploadLoop]
    cases hpf : processFile fonts0 f with
    | ok r =>
      obtain ⟨s, t, p, h⟩ := ih { st with store := dbPut r st.store, puts := st.puts ++ [r] }
      exact ⟨s, t, p, by rw [h]⟩
    | fail tt =>
      obtain ⟨s, t, p, h⟩ := ih (addToast tt st)
      exact ⟨s, t, p, by rw [h]; rfl⟩

/-- What must have held of a file for its per-file processing to succeed. -/
theorem processFile_ok_inv {fonts0 : List FontRecord} {f : JsFile}
    {r : FontRecord} (h : processFile fonts0 f = FileResult.ok r) :
    checkSignature f = true ∧ r.fileName = f.name ∧ f.size ≤ MAX_FILE_SIZE ∧
      f.readOk = true ∧ f.putOk = true ∧ r = uploadRecord fonts0 f := by
  unfold processFile at h
  by_cases h1 : f.size > MAX_FILE_SIZE
  · rw [if_pos h1] at h; exact absurd h (by simp)
  · rw [if_neg h1] at h
    by_cases h2 : checkSignature f = false
    · rw [if_pos h2] at h; exact absurd h (by simp)
    · rw [if_neg h2] at h
      by_cases h3 : f.readOk = false
      · rw [if_pos h3] at h; exact absurd h (by simp)
      · rw [if_neg h3] at h
        by_cases h4 : f.putOk = true
        · rw [if_pos h4] at h
          simp only [FileResult.ok.injEq] at h
          refine ⟨?_, ?_, by omega, ?_, h4, h.symm⟩
          · cases hcs : checkSignature f
            · exact absurd hcs h2
            · rfl
          · rw [← h]; rfl
          · cases hr : f.readOk
            · exact absurd hr h3
            · rfl
        · rw [if_neg h4] at h; exact absurd h (by simp)

/-- Every record a batch saves originates in an input file that passed the
signature check, and carries that file's name. -/
theorem savedRecords_prov {fonts0 : List FontRecord} {files : List JsFile}
    {r : FontRecord} (h : r ∈ savedRecords fonts0 files) :
    ∃ g, g ∈ files ∧ checkSignature g = true ∧ r.fileName = g.name := by
  unfold savedRecords at h
  obtain ⟨g, hg, hpf⟩ := List.mem_filterMap.1 h
  refine ⟨g, hg, ?_⟩
  cases hres : processFile fonts0 g with
  | ok r' =>
    rw [hres] at hpf
    simp only [Option.some.injEq] at hpf
    obtain ⟨hsig, hname, _⟩ := processFile_ok_inv hres
    exact ⟨hsig, hpf ▸ hname⟩
  | fail t => rw [hres] at hpf; simp at hpf

theorem uploadFinish_puts (fonts0 : List FontRecord) (vf : List JsFile)
    (st : AppState) :
    (uploadFinish fonts0 vf st).puts = st.puts ++ savedRecords fonts0 vf := by
  unfold uploadFinish
  by_cases hc : countOk fonts0 vf > 0
  · rw [if_pos hc]
    show (loadFonts _).puts = _
    rw [loadFonts_puts]
    exact uploadLoop_puts fonts0 vf _
  · rw [if_neg hc, loadFonts_puts]
    exact uploadLoop_puts fonts0 vf _

theorem uploadFinish_toasts (fonts0 : List FontRecord) (vf : List JsFile)
    (st : AppState) :
    (uploadFinish fonts0 vf st).toasts = st.toasts ++ failToasts fonts0 vf ++
      (if countOk fonts0 vf > 0 then [Toast.uploaded (countOk fonts0 vf)]
       else []) := by
  unfold uploadFinish
  by_cases hc : countOk fonts0 vf > 0
  · rw [if_pos hc, if_pos hc]
    show (loadFonts _).toasts ++ _ = _
    rw [loadFonts_toasts]
    show (uploadLoop fonts0 vf { st with isProcessing := true }).toasts ++ _ = _
    rw [uploadLoop_toasts]
  · rw [if_neg hc, if_neg hc, loadFonts_toasts]
    show (uploadLoop fonts0 vf { st with isProcessing := true }).toasts = _
    rw [uploadLoop_toasts, List.append_nil]

/-- A file whose slice read fails, or whose contents are shorter than four
bytes, fails the signature check. -/
theorem checkSignature_short {f : JsFile}
    (h : f.sliceReadOk = false ∨ f.content.length < 4) :
    checkSignature f = false := by
  rcases h with h | h
  · unfold checkSignature
    rw [h]
    rfl
  · unfold checkSignature
    cases hs : f.sliceReadOk
    · rfl
    · rcases hc : f.content with _ | ⟨a, _ | ⟨b, _ | ⟨c, _ | ⟨d, t⟩⟩⟩⟩ <;>
        first
          | rfl
          | (exfalso; rw [hc] at h; simp only [List.length_cons] at h; omega)

/-- A valid-extension file of acceptable size whose signature check fails is
recorded as a per-file `badSig` failure. -/
theorem failToasts_mem {fonts0 : List FontRecord} {files : List JsFile}
    {f : JsFile} (hf : f ∈ files) (hsz : f.size ≤ MAX_FILE_SIZE)
    (hsig : checkSignature f = false) :
    Toast.badSig f.name ∈ failToasts fonts0 files := by
  unfold failToasts
  refine List.mem_filterMap.2 ⟨f, hf, ?_⟩
  unfold processFile
  rw [if_neg (by omega), if_pos hsig]

/-- Provenance of every put performed by `handleUpload`: it either predates
the call or originates in an input file that passed the signature check. -/
theorem handleUpload_puts_prov {q : Bool} {files : List JsFile}
    {st : AppState} {r : FontRecord}
    (h : r ∈ (handleUpload q files st).puts) :
    r ∈ st.puts ∨ ∃ g, g ∈ files ∧ checkSignature g = true ∧
      r.fileName = g.name := by
  unfold handleUpload at h
  by_cases hp : st.isProcessing
  · rw [if_pos hp] at h; exact Or.inl h
  · rw [if_neg hp] at h
    by_cases h1 : (files.filter hasValidExt).isEmpty
    · rw [if_pos h1] at h; exact Or.inl h
    · rw [if_neg h1] at h
      by_cases h2 : st.fonts.length + (files.filter hasValidExt).length > MAX_FONTS
      · rw [if_pos h2] at h; exact Or.inl h
      · rw [if_neg h2] at h
        by_cases h3 : q = false
        · rw [if_pos h3] at h; exact Or.inl h
        · rw [if_neg h3] at h
          rw [uploadFinish_puts] at h
          rcases List.mem_append.1 h with h' | h'
          · exact Or.inl h'
          · obtain ⟨g, hg, hsig, hname⟩ := savedRecords_prov h'
            exact Or.inr ⟨g, List.mem_of_mem_filter hg, hsig, hname⟩

/-- The code's filter predicate agrees with the amended claim's predicate. -/
theorem jsMatch_eq_amend (q : String) (f : FontRecord) :
    jsMatch (jsToLower q) f = decide (amendMatch q f) := by
  unfold jsMatch amendMatch ciContains
  by_cases h1 : f.fileName = "" <;> by_cases h2 : f.userTag = "" <;>
    simp [h1, h2]

/-! ## Claims -/

/-- C1 (counterexample): with the empty search string and a registry holding
one record whose `fileName` and `userTag` are both empty, `filter()` yields
the empty list although the record's fields do contain the query
case-insensitively (every string contains the empty string), so the filtered
view is not the claimed subsequence. -/
theorem filter_spec_counterexample :
    (filterOp stC1).filtered ≠
      stC1.fonts.filter (fun f => decide (specMatch stC1.search f)) := by
  decide

/-- C1 (amended): `filter(q)` sets `filtered` to exactly the subsequence of
`fonts` whose non-empty `fileName` or non-empty `userTag` contains `q`
case-insensitively (a record with both fields empty matches no query, due to
the JS truthiness guards); the result is an order-preserving sublist of
`fonts` and contains a record exactly when it is in `fonts` and matches. -/
theorem filter_spec_amended (st : AppState) :
    (filterOp st).filtered =
      st.fonts.filter (fun f => decide (amendMatch st.search f)) ∧
    List.Sublist (filterOp st).filtered st.fonts ∧
    (∀ f, f ∈ (filterOp st).filtered ↔ f ∈ st.fonts ∧ amendMatch st.search f) ∧
    (filterOp st).fonts = st.fonts := by
  have hmain : (filterOp st).filtered =
      st.fonts.filter (fun f => decide (amendMatch st.search f)) := by
    rw [filterOp_filtered]
    unfold jsFilter
    exact List.filter_congr (fun f _ => jsMatch_eq_amend st.search f)
  refine ⟨hmain, ?_, ?_, filterOp_fonts st⟩
  · rw [hmain]; exact List.filter_sublist _
  · intro f
    rw [hmain, List.mem_filter]
    simp [decide_eq_true_eq]

/-- C3: a file whose first four bytes are not one of the four font magic
numbers never gets a record persisted for it — every persisted record
originates in a file that passed the signature check — and (when the batch
guards pass and the file is within the size cap) the file is recorded as a
per-file `badSig` failure while the batch continues. -/
theorem upload_rejects_bad_signature (q : Bool) (files : List JsFile)
    (st : AppState) (f : JsFile) (hf : f ∈ files)
    (hsig : checkSignature f = false) :
    (∀ r, r ∈ (handleUpload q files st).puts →
        r ∈ st.puts ∨ ∃ g, g ∈ files ∧ checkSignature g = true ∧
          r.fileName = g.name) ∧
    (hasValidExt f = true → st.isProcessing = false → q = true →
      st.fonts.length + (files.filter hasValidExt).length ≤ MAX_FONTS →
      f.size ≤ MAX_FILE_SIZE →
      Toast.badSig f.name ∈ (handleUpload q files st).toasts) := by
  constructor
  · intro r hr; exact handleUpload_puts_prov hr
  · intro hext hproc hq hcap hsz
    have hmem : f ∈ files.filter hasValidExt := List.mem_filter.2 ⟨hf, hext⟩
    unfold handleUpload
    rw [if_neg (by simp [hproc]), if_neg ?hne, if_neg (by omega),
      if_neg (by simp [hq]), uploadFinish_toasts]
    case hne =>
      intro habs
      rw [List.isEmpty_iff] at habs
      rw [habs] at hmem
      exact List.not_mem_nil f hmem
    exact List.mem_append.2 (Or.inl (List.mem_append.2
      (Or.inr (failToasts_mem hmem hsz hsig))))

/-- C3 witness: a concrete batch containing a `.ttf` file with an invalid
signature surfaces a `badSig` failure for it. -/
theorem upload_rejects_bad_signature_witness :
    ttfBad ∈ [ttfBad, ttfGood] ∧ checkSignature ttfBad = false ∧
    Toast.badSig "bad.ttf" ∈ (handleUpload true [ttfBad, ttfGood] initState).toasts :=
  ⟨by decide, by decide,
    (upload_rejects_bad_signature true [ttfBad, ttfGood] initState ttfBad
      (by decide) (by decide)).2 (by decide) rfl rfl (by decide) (by decide)⟩

set_option maxRecDepth 100000 in
/-- C4 (counterexample): a batch of 501 files of which only one has a valid
extension.  The stored count plus the batch size exceeds 500, yet the code
persists a record, because the cap check counts only valid-extension files. -/
theorem upload_cap_counterexample :
    initState.fonts.length + files501.length > MAX_FONTS ∧
    (handleUpload true files501 initState).puts ≠ [] := by
  constructor
  · decide
  · decide

/-- C4 (amended): when the busy flag is clear, at least one file has a valid
extension, and the stored count plus the number of valid-extension files in
the batch exceeds 500, `handleUpload` changes nothing except emitting exactly
one `limitExceeded` rejection toast — zero records are persisted and no
per-file processing happens. -/
theorem upload_cap_rejects (q : Bool) (files : List JsFile) (st : AppState)
    (hproc : st.isProcessing = false)
    (hne : (files.filter hasValidExt).isEmpty = false)
    (hcap : st.fonts.length + (files.filter hasValidExt).length > MAX_FONTS) :
    handleUpload q files st = addToast Toast.limitExceeded st := by
  unfold handleUpload
  rw [if_neg (by simp [hproc]), if_neg (by simp [hne]), if_pos hcap]

set_option maxRecDepth 100000 in
/-- C4 witness: one more valid upload into a registry of 500 records is
rejected wholesale with the limit toast. -/
theorem upload_cap_rejects_witness :
    st500.isProcessing = false ∧
    ([ttfGood].filter hasValidExt).isEmpty = false ∧
    st500.fonts.length + ([ttfGood].filter hasValidExt).length > MAX_FONTS ∧
    handleUpload true [ttfGood] st500 = addToast Toast.limitExceeded st500 :=
  ⟨rfl, by decide, by decide,
    upload_cap_rejects true [ttfGood] st500 rfl (by decide) (by decide)⟩

/-- C7: while `isProcessing` is set, a second upload batch and a
full-library clear are silent no-ops: the state (including the toast, put
and revocation logs) is returned unchanged. -/
theorem busy_flag_noop (st : AppState) (h : st.isProcessing = true) :
    (∀ q files, handleUpload q files st = st) ∧
    (∀ c ok, clearAll c ok st = st) := by
  constructor
  · intro q files
    unfold handleUpload
    rw [if_pos h]
  · intro c ok
    unfold clearAll
    by_cases hc : c = false
    · rw [if_pos hc]
    · rw [if_neg hc, if_pos h]

/-- C7 witness: on a concrete busy state, an upload and a clear both return
the state unchanged. -/
theorem busy_flag_noop_witness :
    stBusy.isProcessing = true ∧
    handleUpload true [ttfGood] stBusy = stBusy ∧
    clearAll true true stBusy = stBusy :=
  ⟨rfl, (busy_flag_noop stBusy rfl).1 true [ttfGood],
    (busy_flag_noop stBusy rfl).2 true true⟩

/-- C9: a file enters the batch exactly when its lowercased name ends with
one of the four accepted extensions, so the check is case-insensitive; in
particular `FONT.TTF` passes the filter. -/
theorem extension_filter_case_insensitive :
    (∀ (files : List JsFile) (f : JsFile),
        f ∈ files.filter hasValidExt ↔
          f ∈ files ∧ ∃ e, e ∈ validExtensions ∧
            e.data <:+ (jsToLower f.name).data) ∧
    hasValidExt upperTtf = true := by
  constructor
  · intro files f
    rw [List.mem_filter]
    unfold hasValidExt strEndsWith
    simp [List.any_eq_true]
  · decide

/-- C10: `checkSignature` resolves `false` (rather than throwing) both when
the file's contents are shorter than four bytes and when the read fails; the
per-file processing of such a file can never succeed, and every record
`handleUpload` persists originates in a file whose signature check passed. -/
theorem checkSignature_total (f : JsFile)
    (h : f.sliceReadOk = false ∨ f.content.length < 4) :
    checkSignature f = false ∧
    (∀ fonts0 r, processFile fonts0 f ≠ FileResult.ok r) ∧
    (∀ q files st r, r ∈ (handleUpload q files st).puts →
        r ∈ st.puts ∨ ∃ g, g ∈ files ∧ checkSignature g = true ∧
          r.fileName = g.name) := by
  refine ⟨checkSignature_short h, ?_, ?_⟩
  · intro fonts0 r hok
    obtain ⟨hsig, _⟩ := processFile_ok_inv hok
    rw [checkSignature_short h] at hsig
    exact absurd hsig (by simp)
  · intro q files st r hr
    exact handleUpload_puts_prov hr

/-- C10 witness: a two-byte `.ttf` file fails the signature check. -/
theorem checkSignature_total_witness :
    (shortTtf.sliceReadOk = false ∨ shortTtf.content.length < 4) ∧
    checkSignature shortTtf = false :=
  ⟨Or.inr (by decide),
    (checkSignature_total shortTtf (Or.inr (by decide))).1⟩

/-- C6: `sanitizeTag` is exactly trim, then cap at 40 characters, then strip
of control and bidi-override characters; its output is at most 40 characters
long with no stripped character remaining, and `updateTag` (when the record
exists and the put succeeds) persists the record with precisely this tag. -/
theorem sanitizeTag_spec :
    (∀ raw, sanitizeTag raw = specSanitizeTag raw) ∧
    (∀ raw, (sanitizeTag raw).data.length ≤ 40) ∧
    (∀ raw c, c ∈ (sanitizeTag raw).data → isBadTagChar c = false) ∧
    (∀ n raw st f0,
        st.fonts.find? (fun f => decide (f.fileName = n)) = some f0 →
        (updateTag true n raw st).store =
          dbPut { f0 with userTag := specSanitizeTag raw } st.store) := by
  have hsan : ∀ raw, sanitizeTag raw = specSanitizeTag raw := by
    intro raw
    by_cases h : raw = ""
    · rw [h]; decide
    · unfold sanitizeTag specSanitizeTag
      rw [if_neg h]
  refine ⟨hsan, ?_, ?_, ?_⟩
  · intro raw
    rw [hsan raw]
    unfold specSanitizeTag
    exact le_trans (List.length_filter_le _ _) (List.length_take_le _ _)
  · intro raw c hc
    rw [hsan raw] at hc
    unfold specSanitizeTag at hc
    have := (List.mem_filter.1 hc).2
    cases hb : isBadTagChar c
    · rfl
    · rw [hb] at this; exact absurd this (by simp)
  · intro n raw st f0 hfind
    unfold updateTag
    rw [hfind]
    show dbPut { f0 with userTag := sanitizeTag raw } st.store = _
    rw [hsan raw]

/-- C6 witness: updating the tag of the stored record `a.ttf` persists the
record with the sanitized tag. -/
theorem sanitizeTag_spec_witness :
    stTag.fonts.find? (fun f => decide (f.fileName = "a.ttf")) = some recA ∧
    (updateTag true "a.ttf" "  new tag  " stTag).store =
      dbPut { recA with userTag := specSanitizeTag "  new tag  " } stTag.store :=
  ⟨by decide,
    sanitizeTag_spec.2.2.2 "a.ttf" "  new tag  " stTag recA (by decide)⟩

/-- C2 (counterexample): `updateTag` with a failing `DB.put` still mutates
the in-memory registry (the record's tag changes) and surfaces no
notification, contradicting the claim that a store failure leaves the
registry unchanged and is surfaced to the user. -/
theorem store_failure_counterexample :
    (updateTag false "a.ttf" "new" stTag).fonts ≠ stTag.fonts ∧
    (updateTag false "a.ttf" "new" stTag).toasts = [] := by
  constructor
  · decide
  · decide

/-- C2 (amended): on a store failure `deleteSingleFont` and `clearAll` leave
every in-memory field unchanged and surface exactly one error notification;
`updateTag`, however, applies the sanitized tag to the in-memory record
before the put resolves and surfaces no notification when the put fails
(only the store itself is left unchanged). -/
theorem store_failure_amended (st : AppState) (n raw : String)
    (hproc : st.isProcessing = false) :
    deleteSingleFont true false n st = addToast Toast.deleteFailed st ∧
    clearAll true false st = addToast Toast.clearFailed st ∧
    (∀ f0, st.fonts.find? (fun f => decide (f.fileName = n)) = some f0 →
        (updateTag false n raw st).store = st.store ∧
        (updateTag false n raw st).toasts = st.toasts ∧
        (updateTag false n raw st).fonts =
          st.fonts.map (fun f => if f.fileName = n
            then { f with userTag := sanitizeTag raw } else f)) := by
  refine ⟨?_, ?_, ?_⟩
  · unfold deleteSingleFont
    rw [if_neg (by simp), if_pos rfl]
  · unfold clearAll
    rw [if_neg (by simp), if_neg (by simp [hproc]), if_neg (by simp)]
    have hst : ({ st with isProcessing := false } : AppState) = st := by
      apply AppState.ext <;> simp [hproc]
    rw [hst]
  · intro f0 hfind
    unfold updateTag
    rw [hfind]
    exact ⟨rfl, rfl, rfl⟩

/-! ## Render no-op lemmas (claim C5) -/

theorem positionCard_id {grid : List GridChild} {cid idx : Nat}
    (h : grid[idx]? = some (GridChild.card cid)) :
    positionCard grid cid idx = grid := by
  unfold positionCard
  rw [h]
  simp

/-- When the grid, from position `pre.length` on, already holds the cards of
the remaining records in order, the render loop changes nothing. -/
theorem renderLoop_noop :
    ∀ (fs : List FontRecord) (rmSuf : List (String × Nat))
      (pre : List GridChild) (st : AppState),
      (∀ e, e ∈ rmSuf → e ∈ st.renderedMap) →
      rmSuf.map Prod.fst = fs.map (fun f => f.fileName) →
      (st.renderedMap.map Prod.fst).Nodup →
      st.grid = pre ++ rmSuf.map (fun e => GridChild.card e.2) →
      renderLoop fs pre.length st = st := by
  intro fs
  induction fs with
  | nil => intro rmSuf pre st _ _ _ _; rfl
  | cons f rest ih =>
    intro rmSuf pre st hsub hnames hnd hgrid
    cases rmSuf with
    | nil => simp at hnames
    | cons e rmSuf' =>
      simp only [List.map_cons, List.cons.injEq] at hnames
      obtain ⟨he1, hrest⟩ := hnames
      have hmem : (f.fileName, e.2) ∈ st.renderedMap := by
        have h0 := hsub e (List.mem_cons_self e rmSuf')
        rwa [show e = (f.fileName, e.2) from Prod.ext he1 rfl] at h0
      have hlk : alookup f.fileName st.renderedMap = some e.2 :=
        alookup_eq_of_mem_nodup hnd hmem
      rw [renderLoop]
      simp only [hlk]
      have hpos : positionCard st.grid e.2 pre.length = st.grid := by
        apply positionCard_id
        rw [hgrid, List.getElem?_append_right (le_refl pre.length)]
        simp
      rw [hpos]
      have hid : ({ st with grid := st.grid } : AppState) = st := rfl
      rw [hid]
      have hlen : pre.length + 1 = (pre ++ [GridChild.card e.2]).length := by simp
      rw [hlen]
      apply ih rmSuf' (pre ++ [GridChild.card e.2]) st
      · intro x hx; exact hsub x (List.mem_cons_of_mem e hx)
      · exact hrest
      · exact hnd
      · rw [hgrid]; simp

/-- When every rendered entry's key is still in the filtered view, the
stale-entry cleanup does nothing. -/
theorem removeStale_eq_self (st : AppState)
    (h : ∀ e, e ∈ st.renderedMap →
      e.1 ∈ st.filtered.map (fun f => f.fileName)) :
    removeStale st = st := by
  have hstale : st.renderedMap.filter (fun e =>
      decide (e.1 ∉ st.filtered.map (fun f => f.fileName))) = [] := by
    rw [List.filter_eq_nil_iff]
    intro e he
    simp [h e he]
  have hrm : st.renderedMap.filter (fun e =>
      decide (e.1 ∈ st.filtered.map (fun f => f.fileName))) = st.renderedMap := by
    rw [List.filter_eq_self]
    intro e he
    simp [h e he]
  unfold removeStale
  rw [hstale, hrm]
  have hgr : st.grid.filter (fun c =>
      match c with
      | GridChild.card i => decide (i ∉ ([] : List (String × Nat)).map Prod.snd)
      | GridChild.empty => true) = st.grid := by
    rw [List.filter_eq_self]
    intro c _
    cases c
    · simp
    · rfl
  rw [hgr]

theorem emptyStateStep_of_nonempty {st : AppState}
    (h : st.filtered.isEmpty = false)
    (hg : ∀ c, c ∈ st.grid → c ≠ GridChild.empty) :
    emptyStateStep st = st := by
  unfold emptyStateStep
  rw [if_neg (by simp [h])]
  have hf : st.grid.filter (fun c => decide (c ≠ GridChild.empty)) = st.grid := by
    rw [List.filter_eq_self]
    intro c hc
    simp [hg c hc]
  rw [hf]

theorem emptyStateStep_of_empty {st : AppState}
    (h : st.filtered.isEmpty = true) (hne : GridChild.empty ∉ st.grid) :
    emptyStateStep st = { st with grid := st.grid ++ [GridChild.empty] } := by
  unfold emptyStateStep
  rw [if_pos h, if_neg hne]

/-- `filter()` commutes with removing records from the registry. -/
theorem jsFilter_filter_comm (q : String) (p : FontRecord → Bool)
    (l : List FontRecord) :
    jsFilter q (l.filter p) = (jsFilter q l).filter p := by
  unfold jsFilter
  rw [List.filter_filter, List.filter_filter]
  apply List.filter_congr
  intro a _
  rw [Bool.and_comm]

theorem deleteMutated_fonts (n : String) (u : Url) (cid : Nat) (st : AppState) :
    (deleteMutated n u cid st).fonts =
      st.fonts.filter (fun f => decide (f.fileName ≠ n)) := rfl

theorem deleteMutated_filtered (n : String) (u : Url) (cid : Nat) (st : AppState) :
    (deleteMutated n u cid st).filtered =
      st.filtered.filter (fun f => decide (f.fileName ≠ n)) := rfl

theorem deleteMutated_search (n : String) (u : Url) (cid : Nat) (st : AppState) :
    (deleteMutated n u cid st).search = st.search := rfl

theorem deleteMutated_grid (n : String) (u : Url) (cid : Nat) (st : AppState) :
    (deleteMutated n u cid st).grid =
      st.grid.filter (fun c => decide (c ≠ GridChild.card cid)) := rfl

theorem deleteMutated_renderedMap (n : String) (u : Url) (cid : Nat)
    (st : AppState) :
    (deleteMutated n u cid st).renderedMap =
      st.renderedMap.filter (fun e => decide (e.1 ≠ n)) := rfl

/-- On a state whose filtered view, rendered map and grid are already
mutually consistent, `filter()` (hence `render()`) is the identity apart
from installing the empty-state placeholder when the view is empty. -/
theorem filterOp_aligned (stM : AppState)
    (hfe : jsFilter stM.search stM.fonts = stM.filtered)
    (hnames : stM.renderedMap.map Prod.fst =
      stM.filtered.map (fun f => f.fileName))
    (hnd : (stM.renderedMap.map Prod.fst).Nodup)
    (hgrid : stM.grid = stM.renderedMap.map (fun e => GridChild.card e.2)) :
    filterOp stM = (if stM.filtered.isEmpty
      then { stM with grid := stM.grid ++ [GridChild.empty] }
      else stM) := by
  unfold filterOp
  have hstR : { stM with filtered := jsFilter stM.search stM.fonts } = stM := by
    rw [hfe]
  rw [hstR]
  unfold render
  have hrs : removeStale stM = stM := removeStale_eq_self stM (by
    intro e he
    rw [← hnames]
    exact List.mem_map_of_mem Prod.fst he)
  rw [hrs]
  by_cases hie : stM.filtered.isEmpty
  · rw [if_pos hie]
    have hfnil : stM.filtered = [] := List.isEmpty_iff.1 hie
    have hrmnil : stM.renderedMap = [] := by
      have h0 := hnames
      rw [hfnil] at h0
      simp only [List.map_nil] at h0
      exact List.map_eq_nil_iff.1 h0
    have hgnil : stM.grid = [] := by rw [hgrid, hrmnil]; rfl
    have hes : emptyStateStep stM =
        { stM with grid := stM.grid ++ [GridChild.empty] } :=
      emptyStateStep_of_empty hie (by rw [hgnil]; exact List.not_mem_nil _)
    rw [hes, hfnil]
    rfl
  · rw [if_neg hie]
    have hie' : stM.filtered.isEmpty = false := Bool.eq_false_iff.2 hie
    have hes : emptyStateStep stM = stM := emptyStateStep_of_nonempty hie' (by
      intro c hc
      rw [hgrid] at hc
      obtain ⟨e, _, rfl⟩ := List.mem_map.1 hc
      simp)
    rw [hes]
    exact renderLoop_noop stM.filtered stM.renderedMap [] stM
      (fun e he => he) hnames hnd (by rw [hgrid]; rfl)

/-! ## Style-sheet invariant lemmas (claim C8) -/

theorem styleInv_of_eq {st st' : AppState}
    (hr : st'.styleRules = st.styleRules)
    (hl : st'.loadedFonts = st.loadedFonts) (h : StyleInv st) : StyleInv st' := by
  unfold StyleInv at h ⊢
  rw [hr, hl]
  exact h

theorem injectFontFace_styleInv (n : String) (d : FontData) (st : AppState)
    (h : StyleInv st) : StyleInv (injectFontFace n d st).1 := by
  unfold injectFontFace
  by_cases hc : safeFontId n d ∈ st.loadedFonts
  · simp only [hc, if_true]
    exact h
  · rcases hg : getFontUrl n d st with ⟨st1, o⟩
    obtain ⟨ou, uc, hsh⟩ := getFontUrl_shape n d st
    rw [hg] at hsh
    have hr : st1.styleRules = st.styleRules := by
      rw [show st1 = _ from hsh]
    have hl : st1.loadedFonts = st.loadedFonts := by
      rw [show st1 = _ from hsh]
    simp only [hc, if_false]
    cases o with
    | none => exact styleInv_of_eq hr hl h
    | some u =>
      show StyleInv { st1 with styleRules := st1.styleRules ++ [safeFontId n d],
                               loadedFonts := st1.loadedFonts ++ [safeFontId n d] }
      constructor
      · show (st1.styleRules ++ [safeFontId n d]).Nodup
        rw [hr]
        have hfid : safeFontId n d ∉ st.styleRules := fun hmem => hc (h.2 _ hmem)
        rw [List.nodup_append]
        exact ⟨h.1, List.nodup_singleton _, by simp [List.disjoint_singleton, hfid]⟩
      · intro id hid
        show id ∈ st1.loadedFonts ++ [safeFontId n d]
        rw [hl]
        have hid' : id ∈ st1.styleRules ++ [safeFontId n d] := hid
        rw [hr] at hid'
        rcases List.mem_append.1 hid' with h' | h'
        · exact List.mem_append.2 (Or.inl (h.2 _ h'))
        · exact List.mem_append.2 (Or.inr h')

theorem renderLoop_styleInv :
    ∀ (fs : List FontRecord) (idx : Nat) (st : AppState),
      StyleInv st → StyleInv (renderLoop fs idx st) := by
  intro fs
  induction fs with
  | nil => intro idx st h; exact h
  | cons f rest ih =>
    intro idx st h
    rw [renderLoop]
    cases hlk : alookup f.fileName st.renderedMap with
    | some cid =>
      simp only [hlk]
      exact ih (idx + 1) _ (styleInv_of_eq rfl rfl h)
    | none =>
      simp only [hlk]
      have hinv := injectFontFace_styleInv f.fileName f.data st h
      rcases hg : injectFontFace f.fileName f.data st with ⟨st1, o⟩
      rw [hg] at hinv
      cases o with
      | none => exact ih (idx + 1) st1 hinv
      | some fid => exact ih (idx + 1) _ (styleInv_of_eq rfl rfl hinv)

theorem render_styleInv (st : AppState) (h : StyleInv st) :
    StyleInv (render st) := by
  unfold render
  apply renderLoop_styleInv
  obtain ⟨g, hes⟩ := emptyStateStep_shape (removeStale st)
  exact styleInv_of_eq (by rw [hes]; rfl) (by rw [hes]; rfl) h

theorem filterOp_styleInv (st : AppState) (h : StyleInv st) :
    StyleInv (filterOp st) := by
  unfold filterOp
  exact render_styleInv _ (styleInv_of_eq rfl rfl h)

/-- Reloading resets the style sheet and the cache together, so the
invariant holds afterwards regardless of the prior state. -/
theorem loadFonts_styleInv (st : AppState) : StyleInv (loadFonts st) := by
  unfold loadFonts
  apply filterOp_styleInv
  exact ⟨List.nodup_nil, by intro id hid; exact absurd hid (List.not_mem_nil id)⟩

theorem uploadFinish_styleInv (fonts0 : List FontRecord) (vf : List JsFile)
    (st : AppState) : StyleInv (uploadFinish fonts0 vf st) := by
  unfold uploadFinish
  by_cases hc : countOk fonts0 vf > 0
  · rw [if_pos hc]
    exact styleInv_of_eq rfl rfl (loadFonts_styleInv _)
  · rw [if_neg hc]
    exact loadFonts_styleInv _

theorem handleUpload_styleInv (q : Bool) (files : List JsFile) (st : AppState)
    (h : StyleInv st) : StyleInv (handleUpload q files st) := by
  unfold handleUpload
  by_cases h0 : st.isProcessing
  · rw [if_pos h0]; exact h
  · rw [if_neg h0]
    by_cases h1 : (files.filter hasValidExt).isEmpty
    · rw [if_pos h1]; exact styleInv_of_eq rfl rfl h
    · rw [if_neg h1]
      by_cases h2 : st.fonts.length + (files.filter hasValidExt).length > MAX_FONTS
      · rw [if_pos h2]; exact styleInv_of_eq rfl rfl h
      · rw [if_neg h2]
        by_cases h3 : q = false
        · rw [if_pos h3]; exact styleInv_of_eq rfl rfl h
        · rw [if_neg h3]; exact uploadFinish_styleInv _ _ _

theorem deleteSingleFont_styleInv (c ok : Bool) (n : String) (st : AppState)
    (h : StyleInv st) : StyleInv (deleteSingleFont c ok n st) := by
  unfold deleteSingleFont
  by_cases hc : c = false
  · rw [if_pos hc]; exact h
  · rw [if_neg hc]
    by_cases hok : ok = false
    · rw [if_pos hok]; exact styleInv_of_eq rfl rfl h
    · rw [if_neg hok]
      apply styleInv_of_eq rfl rfl
      apply filterOp_styleInv
      have h1 : StyleInv (deleteUrlStep n (deleteStateStep n st)) := by
        unfold deleteUrlStep
        cases alookup n (deleteStateStep n st).objectUrls
        · exact styleInv_of_eq rfl rfl h
        · exact styleInv_of_eq rfl rfl h
      unfold deleteDomStep
      cases alookup n (deleteUrlStep n (deleteStateStep n st)).renderedMap
      · exact h1
      · exact styleInv_of_eq rfl rfl h1

theorem clearAll_styleInv (c ok : Bool) (st : AppState) (h : StyleInv st) :
    StyleInv (clearAll c ok st) := by
  unfold clearAll
  by_cases hc : c = false
  · rw [if_pos hc]; exact h
  · rw [if_neg hc]
    by_cases hp : st.isProcessing
    · rw [if_pos hp]; exact h
    · rw [if_neg hp]
      by_cases hok : ok = true
      · rw [if_pos hok]
        exact styleInv_of_eq rfl rfl (loadFonts_styleInv _)
      · rw [if_neg hok]
        exact styleInv_of_eq rfl rfl h

theorem updateTag_styleInv (ok : Bool) (n raw : String) (st : AppState)
    (h : StyleInv st) : StyleInv (updateTag ok n raw st) := by
  unfold updateTag
  cases st.fonts.find? (fun f => decide (f.fileName = n))
  · exact h
  · cases ok
    · exact styleInv_of_eq rfl rfl h
    · exact styleInv_of_eq rfl rfl h

theorem exportPDF_styleInv (st : AppState) (h : StyleInv st) :
    StyleInv (exportPDF st) := by
  unfold exportPDF
  by_cases h1 : (st.search ≠ "" && st.filtered.isEmpty) = true
  · rw [if_pos h1]; exact styleInv_of_eq rfl rfl h
  · rw [if_neg h1]
    by_cases h2 : st.fonts.isEmpty
    · rw [if_pos h2]; exact styleInv_of_eq rfl rfl h
    · rw [if_neg h2]
      apply styleInv_of_eq rfl rfl
      have hfold : ∀ (l : List FontRecord) (s : AppState), StyleInv s →
          StyleInv (l.foldl (fun s f => (injectFontFace f.fileName f.data s).1) s) := by
        intro l
        induction l with
        | nil => intro s hs; exact hs
        | cons x xs ih =>
          intro s hs
          exact ih _ (injectFontFace_styleInv x.fileName x.data s hs)
      exact hfold _ _ (styleInv_of_eq rfl rfl h)

/-- C8: the style-sheet invariant — at most one active font-face rule per
distinct identifier, every rule's identifier cached — holds initially and is
preserved by every operation of the app; reloading re-establishes it
unconditionally because clearing the sheet also clears the cache, and
`injectFontFace` inserts nothing when the identifier is already cached. -/
theorem fontFace_unique (s s' : AppState) (hstep : Step s s') (h : StyleInv s) :
    StyleInv s' ∧ StyleInv initState ∧ (∀ st, StyleInv (loadFonts st)) ∧
    (∀ n d st, safeFontId n d ∈ st.loadedFonts →
        injectFontFace n d st = (st, some (safeFontId n d))) := by
  refine ⟨?_, by decide, loadFonts_styleInv, ?_⟩
  · cases hstep with
    | upload q files => exact handleUpload_styleInv q files s h
    | search q => exact filterOp_styleInv _ (styleInv_of_eq rfl rfl h)
    | delete c ok n => exact deleteSingleFont_styleInv c ok n s h
    | clear c ok => exact clearAll_styleInv c ok s h
    | tag ok n raw => exact updateTag_styleInv ok n raw s h
    | load => exact loadFonts_styleInv s
    | exportList => exact exportPDF_styleInv s h
  · intro n d st hc
    unfold injectFontFace
    simp only [hc, if_true]

/-- C8 witness: the invariant holds on the initial state and is carried
through a concrete reload step. -/
theorem fontFace_unique_witness :
    StyleInv initState ∧ StyleInv (loadFonts initState) :=
  ⟨by decide,
    (fontFace_unique initState (loadFonts initState) (Step.load initState)
      (by decide)).1⟩

/-- C2 witness: the amended behaviour on a concrete one-record state. -/
theorem store_failure_amended_witness :
    stTag.isProcessing = false ∧
    deleteSingleFont true false "a.ttf" stTag = addToast Toast.deleteFailed stTag ∧
    clearAll true false stTag = addToast Toast.clearFailed stTag ∧
    (updateTag false "a.ttf" "new" stTag).store = stTag.store ∧
    (updateTag false "a.ttf" "new" stTag).toasts = stTag.toasts :=
  ⟨rfl, (store_failure_amended stTag "a.ttf" "new" rfl).1,
    (store_failure_amended stTag "a.ttf" "new" rfl).2.1,
    ((store_failure_amended stTag "a.ttf" "new" rfl).2.2 recA (by decide)).1,
    ((store_failure_amended stTag "a.ttf" "new" rfl).2.2 recA (by decide)).2.1⟩

/-- C5: deleting a rendered record (confirmed, store delete succeeded)
removes exactly that record from the registry, the filtered view and the
store, revokes and removes its object URL, and removes its card from the
rendered map and the grid; every other record, URL binding, map entry and
card is kept, with identity and relative order unchanged (the grid is the
old grid minus the deleted card, or the placeholder alone when the view
becomes empty), and the deletion toast is surfaced. -/
theorem delete_single_font_spec (st : AppState) (n : String) (cid : Nat)
    (u : Url) (hsync : Synced st)
    (hrm : alookup n st.renderedMap = some cid)
    (hurl : alookup n st.objectUrls = some u) :
    (deleteSingleFont true true n st).fonts =
      st.fonts.filter (fun f => decide (f.fileName ≠ n)) ∧
    (deleteSingleFont true true n st).filtered =
      st.filtered.filter (fun f => decide (f.fileName ≠ n)) ∧
    (deleteSingleFont true true n st).store =
      st.store.filter (fun f => decide (f.fileName ≠ n)) ∧
    (deleteSingleFont true true n st).objectUrls =
      st.objectUrls.filter (fun e => decide (e.1 ≠ n)) ∧
    (deleteSingleFont true true n st).revoked = st.revoked ++ [u] ∧
    (deleteSingleFont true true n st).renderedMap =
      st.renderedMap.filter (fun e => decide (e.1 ≠ n)) ∧
    (deleteSingleFont true true n st).grid =
      (if (st.filtered.filter (fun f => decide (f.fileName ≠ n))).isEmpty
       then [GridChild.empty]
       else st.grid.filter (fun c => decide (c ≠ GridChild.card cid))) ∧
    (deleteSingleFont true true n st).toasts = st.toasts ++ [Toast.deleted] := by
  obtain ⟨hfilt, hfnd, hrmk, hrmv, hgridif⟩ := hsync
  -- the success branch and the three mutation steps
  have hdel : deleteSingleFont true true n st =
      addToast Toast.deleted (filterOp (deleteDomStep n (deleteUrlStep n
        (deleteStateStep n st)))) := by
    unfold deleteSingleFont
    rw [if_neg (by simp), if_neg (by simp)]
  have hstep1 : deleteUrlStep n (deleteStateStep n st) =
      { deleteStateStep n st with
        revoked := st.revoked ++ [u],
        objectUrls := st.objectUrls.filter (fun e => decide (e.1 ≠ n)) } := by
    unfold deleteUrlStep deleteStateStep
    rw [show alookup n st.objectUrls = some u from hurl]
  have hd : deleteDomStep n (deleteUrlStep n (deleteStateStep n st)) =
      deleteMutated n u cid st := by
    rw [hstep1]
    unfold deleteDomStep deleteStateStep deleteMutated
    rw [show alookup n st.renderedMap = some cid from hrm]
  -- consequences of the in-sync invariant
  have hmemrm : (n, cid) ∈ st.renderedMap := alookup_mem hrm
  have hfiltnd : (st.filtered.map (fun f => f.fileName)).Nodup := by
    rw [hfilt]
    unfold jsFilter
    exact List.Nodup.sublist
      (List.Sublist.map (fun f : FontRecord => f.fileName)
        (List.filter_sublist st.fonts)) hfnd
  have hkeysnd : (st.renderedMap.map Prod.fst).Nodup := by
    rw [hrmk]; exact hfiltnd
  have hnin : n ∈ st.filtered.map (fun f => f.fileName) := by
    rw [← hrmk]
    exact List.mem_map_of_mem Prod.fst hmemrm
  have hfne : st.filtered.isEmpty = false := by
    cases hcase : st.filtered
    · rw [hcase] at hnin; simp at hnin
    · rfl
  have hgrid : st.grid = st.renderedMap.map (fun e => GridChild.card e.2) := by
    rw [hgridif, if_neg (by simp [hfne])]
  have hrmkeys : (st.renderedMap.filter (fun e => decide (e.1 ≠ n))).map Prod.fst
      = (st.renderedMap.map Prod.fst).filter (fun s => decide (s ≠ n)) :=
    filter_map_comm Prod.fst (fun s => decide (s ≠ n)) st.renderedMap
  have hphnames : (st.filtered.filter (fun f => decide (f.fileName ≠ n))).map
        (fun f => f.fileName)
      = (st.filtered.map (fun f => f.fileName)).filter (fun s => decide (s ≠ n)) :=
    filter_map_comm (fun f => f.fileName) (fun s => decide (s ≠ n)) st.filtered
  have hkeys' : (st.renderedMap.filter (fun e => decide (e.1 ≠ n))).map Prod.fst
      = (st.filtered.filter (fun f => decide (f.fileName ≠ n))).map
          (fun f => f.fileName) := by
    rw [hrmkeys, hphnames, hrmk]
  -- removing the card from the grid = removing the entry from the map
  have hgridM : st.grid.filter (fun c => decide (c ≠ GridChild.card cid)) =
      (st.renderedMap.filter (fun e => decide (e.1 ≠ n))).map
        (fun e => GridChild.card e.2) := by
    rw [hgrid, ← filter_map_comm (fun e => GridChild.card e.2)
      (fun c => decide (c ≠ GridChild.card cid)) st.renderedMap]
    congr 1
    apply List.filter_congr
    intro e he
    have hiff : (GridChild.card e.2 ≠ GridChild.card cid) ↔ (e.1 ≠ n) := by
      constructor
      · intro hne heq
        apply hne
        have he' : e = (n, cid) := eq_of_nodup_map hkeysnd he hmemrm heq
        rw [he']
      · intro hne heq
        apply hne
        have hcid : e.2 = cid := by simpa using heq
        have he' : e = (n, cid) := eq_of_nodup_map hrmv he hmemrm hcid
        rw [he']
    exact decide_eq_decide.2 hiff
  -- the re-render after the mutation is the identity (up to the placeholder)
  have ha1 : jsFilter (deleteMutated n u cid st).search
      (deleteMutated n u cid st).fonts = (deleteMutated n u cid st).filtered := by
    rw [deleteMutated_search, deleteMutated_fonts, deleteMutated_filtered,
      jsFilter_filter_comm, ← hfilt]
  have ha2 : (deleteMutated n u cid st).renderedMap.map Prod.fst =
      (deleteMutated n u cid st).filtered.map (fun f => f.fileName) := by
    rw [deleteMutated_renderedMap, deleteMutated_filtered]
    exact hkeys'
  have ha3 : ((deleteMutated n u cid st).renderedMap.map Prod.fst).Nodup := by
    rw [deleteMutated_renderedMap, hrmkeys]
    exact List.Nodup.filter _ hkeysnd
  have ha4 : (deleteMutated n u cid st).grid =
      (deleteMutated n u cid st).renderedMap.map
        (fun e => GridChild.card e.2) := by
    rw [deleteMutated_grid, deleteMutated_renderedMap]
    exact hgridM
  have hfo := filterOp_aligned (deleteMutated n u cid st) ha1 ha2 ha3 ha4
  rw [deleteMutated_filtered] at hfo
  rw [hdel, hd, hfo]
  by_cases hie :
      (st.filtered.filter (fun f => decide (f.fileName ≠ n))).isEmpty
  · rw [if_pos hie, if_pos hie]
    have hrmnil : st.renderedMap.filter (fun e => decide (e.1 ≠ n)) = [] := by
      have h0 := hkeys'
      rw [List.isEmpty_iff.1 hie] at h0
      simp only [List.map_nil] at h0
      exact List.map_eq_nil_iff.1 h0
    have hgnil : st.grid.filter (fun c => decide (c ≠ GridChild.card cid)) = [] := by
      rw [hgridM, hrmnil]; rfl
    refine ⟨rfl, rfl, rfl, rfl, rfl, ?_, ?_, rfl⟩
    · show st.renderedMap.filter (fun e => decide (e.1 ≠ n)) = _
      rfl
    · show st.grid.filter (fun c => decide (c ≠ GridChild.card cid)) ++
        [GridChild.empty] = [GridChild.empty]
      rw [hgnil]
      rfl
  · rw [if_neg hie, if_neg hie]
    exact ⟨rfl, rfl, rfl, rfl, rfl, rfl, rfl, rfl⟩

/-- C5 witness: deleting the first of two rendered records on a concrete
in-sync state. -/
theorem delete_single_font_spec_witness :
    Synced stDemo ∧
    alookup "a.ttf" stDemo.renderedMap = some 0 ∧
    alookup "a.ttf" stDemo.objectUrls = some (Url.obj 0) ∧
    ((deleteSingleFont true true "a.ttf" stDemo).fonts =
      stDemo.fonts.filter (fun f => decide (f.fileName ≠ "a.ttf")) ∧
    (deleteSingleFont true true "a.ttf" stDemo).filtered =
      stDemo.filtered.filter (fun f => decide (f.fileName ≠ "a.ttf")) ∧
    (deleteSingleFont true true "a.ttf" stDemo).store =
      stDemo.store.filter (fun f => decide (f.fileName ≠ "a.ttf")) ∧
    (deleteSingleFont true true "a.ttf" stDemo).objectUrls =
      stDemo.objectUrls.filter (fun e => decide (e.1 ≠ "a.ttf")) ∧
    (deleteSingleFont true true "a.ttf" stDemo).revoked =
      stDemo.revoked ++ [Url.obj 0] ∧
    (deleteSingleFont true true "a.ttf" stDemo).renderedMap =
      stDemo.renderedMap.filter (fun e => decide (e.1 ≠ "a.ttf")) ∧
    (deleteSingleFont true true "a.ttf" stDemo).grid =
      (if (stDemo.filtered.filter
            (fun f => decide (f.fileName ≠ "a.ttf"))).isEmpty
       then [GridChild.empty]
       else stDemo.grid.filter (fun c => decide (c ≠ GridChild.card 0))) ∧
    (deleteSingleFont true true "a.ttf" stDemo).toasts =
      stDemo.toasts ++ [Toast.deleted]) :=
  ⟨by decide, by decide, by decide,
    delete_single_font_spec stDemo "a.ttf" 0 (Url.obj 0) (by decide)
      (by decide) (by decide)⟩


end FontScope
